import Mathlib

/-!
Verification of the `simple_blockchain` repository (`src/block_chain.py`).

The Python module defines two classes:

* `Block` — five content fields (`index`, `timestamp`, `data`, `previous_hash`,
  `nonce`) plus a stored `hash`, computed by `calculate_hash` as the SHA-256
  hex digest of a `json.dumps(..., sort_keys=True)` serialization of the five
  content fields.
* `Blockchain` — a list `chain` of blocks, a list `pending_transactions`,
  genesis creation on construction, a brute-force `proof_of_work`,
  `mine_pending_transactions`, `add_transaction`, the `last_block` property
  and the validator `is_chain_valid`.

Embedding decisions:

* The SHA-256 hex digest of a UTF-8 string is abstracted as a parameter
  `H : String → String`; every operation is parametrized by `H`.  No claim
  depends on concrete SHA-256 values: each one is either structural or is
  conditioned on (in)equalities between digests, so the theorems quantify
  over `H`.
* Python floats (`time()` timestamps, transaction amounts) are modelled as
  `Rat`; the wall clock is threaded explicitly: each operation that reads
  `time()` takes the current time as an argument.
* The serialization mirrors `json.dumps(..., sort_keys=True)` key order and
  separators; the rendering of numbers is abstracted by `toString : Rat →
  String` (a fixed total function of the value, which is all that the claims
  use).
* Python's unbounded `while True` search in `proof_of_work` is modelled with
  `Nat.find` under the hypothesis that a satisfying nonce exists — exactly
  the condition under which the Python loop terminates, searching 0, 1, 2, …
* `last_block` on an empty chain raises Python's `IndexError`
  (`self.chain[-1]` on an empty list); fallible operations return `Except`.
  The error type also carries the *specified* `EmptyChainError` constructor
  (never produced by the embedded code) so that the specification's claim
  about it can be stated and compared with what the code does.
* The `print` calls in the Python code are side-effect-free narration and are
  not modelled.
-/

/-- An entry of the pending-transactions queue: the dictionaries built by
`add_transaction` (keys `sender`, `recipient`, `amount`, `timestamp`) and the
genesis data dictionary (same keys but no `timestamp`, modelled as `none`). -/
structure Entry where
  sender : String
  recipient : String
  amount : Rat
  timestamp : Option Rat
deriving DecidableEq

/-- A block: the five content fields of `Block.__init__` plus the stored
`hash` attribute. -/
structure Block where
  index : Nat
  timestamp : Rat
  data : List Entry
  previousHash : String
  nonce : Nat
  hash : String
deriving DecidableEq

/-- JSON rendering of a string value (quotation marks around the text; escape
sequences inside the text are not needed for any value this program builds). -/
def jsonStr (s : String) : String := "\"" ++ s ++ "\""

/-- Serialization of one `data` entry, mirroring
`json.dumps(entry, sort_keys=True)`: keys in sorted order
`amount, recipient, sender, timestamp`, with the `timestamp` key absent for
the genesis entry (modelled by `none`). -/
def serializeEntry (e : Entry) : String :=
  "\x7b\"amount\": " ++ toString e.amount ++
    ", \"recipient\": " ++ jsonStr e.recipient ++
    ", \"sender\": " ++ jsonStr e.sender ++
    (match e.timestamp with
     | some t => ", \"timestamp\": " ++ toString t
     | none => "") ++ "\x7d"

/-- Separator used by `json.dumps` between array items. -/
def commaSep : String := ", "

/-- Serialization of the `data` list as a JSON array. -/
def serializeData (data : List Entry) : String :=
  "[" ++ String.intercalate commaSep (data.map serializeEntry) ++ "]"

/-- Serialization of the five content fields of a block, mirroring
`Block.calculate_hash`: `json.dumps({...}, sort_keys=True)` with keys in
sorted order `data, index, nonce, previous_hash, timestamp`. -/
def serializeFields (index : Nat) (timestamp : Rat) (data : List Entry)
    (previousHash : String) (nonce : Nat) : String :=
  "\x7b\"data\": " ++ serializeData data ++
    ", \"index\": " ++ toString index ++
    ", \"nonce\": " ++ toString nonce ++
    ", \"previous_hash\": " ++ jsonStr previousHash ++
    ", \"timestamp\": " ++ toString timestamp ++ "\x7d"

/-- The serialization `calculate_hash` applies to a block: a function of the
five content fields only (the stored `hash` attribute is not serialized). -/
def serializeBlock (b : Block) : String :=
  serializeFields b.index b.timestamp b.data b.previousHash b.nonce

/-- `Block.calculate_hash`: digest of the serialized content fields; `H`
stands for `hashlib.sha256(...).hexdigest()` on the UTF-8 encoding. -/
def calculateHash (H : String → String) (b : Block) : String :=
  H (serializeBlock b)

/-- `Block.__init__`: stores the five fields and immediately sets
`self.hash = self.calculate_hash()`, i.e. the digest of the five fields just
stored. -/
def Block.init (H : String → String) (index : Nat) (timestamp : Rat)
    (data : List Entry) (previousHash : String) (nonce : Nat) : Block :=
  { index := index, timestamp := timestamp, data := data,
    previousHash := previousHash, nonce := nonce,
    hash := H (serializeFields index timestamp data previousHash nonce) }

/-- The ledger state: `self.chain` and `self.pending_transactions`. -/
structure Blockchain where
  chain : List Block
  pending : List Entry
deriving DecidableEq

/-- Errors of the model.  `indexError` models Python's `IndexError`, raised
by `self.chain[-1]` on an empty list.  `emptyChainError` is the
**specification's** `EmptyChainError`: it exists in this type only so that
the spec's error-handling claim can be stated; no embedded operation ever
produces it. -/
inductive LedgerError where
  | indexError
  | emptyChainError
deriving DecidableEq

/-- The class constant `DIFFICULTY_TARGET = "0000"`. -/
def DIFFICULTY_TARGET : String := "0000"

/-- The `last_block` property: `self.chain[-1]`, which returns the final
element of a non-empty list and raises `IndexError` on an empty one. -/
def lastBlock (s : Blockchain) : Except LedgerError Block :=
  match s.chain.getLast? with
  | some b => Except.ok b
  | none => Except.error LedgerError.indexError

/-- `Blockchain.create_new_block`: construct a `Block` with
`index = len(self.chain)`, the given data, previous hash and nonce, and the
current time; re-assign `block.hash = block.calculate_hash()`; append it to
the chain.  Returns the block together with the updated state. -/
def createNewBlock (H : String → String) (now : Rat) (s : Blockchain)
    (nonce : Nat) (previousHash : String) (data : List Entry) :
    Block × Blockchain :=
  let b0 := Block.init H s.chain.length now data previousHash nonce
  let block := { b0 with hash := calculateHash H b0 }
  (block, { s with chain := s.chain ++ [block] })

/-- The sentinel previous-hash of the genesis block. -/
def genesisPrev : String := "0"

/-- The synthetic data entry of the genesis block:
`{"sender": "System", "recipient": "Genesis", "amount": 0}`. -/
def genesisEntry : Entry :=
  { sender := "System", recipient := "Genesis", amount := 0, timestamp := none }

/-- `Blockchain.create_genesis_block`: `create_new_block(nonce=1,
previous_hash="0", data=[genesis entry])`, discarding the returned block. -/
def createGenesisBlock (H : String → String) (now : Rat) (s : Blockchain) :
    Blockchain :=
  (createNewBlock H now s 1 genesisPrev [genesisEntry]).2

/-- `Blockchain.__init__`: empty chain, empty pending queue, then genesis
creation.  `now` is the `time()` value read while building the genesis
block. -/
def ledgerInit (H : String → String) (now : Rat) : Blockchain :=
  createGenesisBlock H now { chain := [], pending := [] }

/-- The test of the `proof_of_work` loop body for a candidate nonce:
`sha256(f'{last_hash}{nonce}').hexdigest()[:len(DIFFICULTY_TARGET)] ==
DIFFICULTY_TARGET`. -/
def powOk (H : String → String) (lastHash : String) (nonce : Nat) : Bool :=
  (H (lastHash ++ toString nonce)).take DIFFICULTY_TARGET.length ==
    DIFFICULTY_TARGET

/-- `Blockchain.proof_of_work`: the unbounded `while True` loop that tries
nonces 0, 1, 2, … and returns the first one passing `powOk`.  The loop
terminates exactly when a satisfying nonce exists, which is taken as a
hypothesis; `Nat.find` returns the least satisfying value, i.e. the one the
ascending scan reaches first. -/
def proof_of_work (H : String → String) (lastHash : String)
    (h : ∃ n, powOk H lastHash n = true) : Nat :=
  Nat.find h

/-- `Blockchain.add_transaction`: build the transaction dictionary with the
current time, append it to `pending_transactions`, and return
`self.last_block.index + 1`.  The append happens before `last_block` is
read, so the state component is updated even in the (empty-chain) error
case, matching Python's mutate-then-raise order. -/
def addTransaction (now : Rat) (s : Blockchain) (sender recipient : String)
    (amount : Rat) : Except LedgerError Nat × Blockchain :=
  let transaction : Entry :=
    { sender := sender, recipient := recipient, amount := amount,
      timestamp := some now }
  let s' : Blockchain := { s with pending := s.pending ++ [transaction] }
  (match lastBlock s' with
   | Except.ok b => Except.ok (b.index + 1)
   | Except.error e => Except.error e, s')

/-- The sender of the miner-reward transaction. -/
def rewardSender : String := "0 (System Reward)"

/-- The reward transaction that `mine_pending_transactions` enqueues after
mining: sender `"0 (System Reward)"`, the miner's address, amount `1.0`,
and the `time()` value read when it is created. -/
def rewardEntry (now : Rat) (minerAddress : String) : Entry :=
  { sender := rewardSender, recipient := minerAddress, amount := 1,
    timestamp := some now }

/-- `Blockchain.mine_pending_transactions`: snapshot the pending queue, read
`last_block` (raising `IndexError` on an empty chain, before any state
change), run `proof_of_work` on its hash, create and append the new block,
reset the pending queue and enqueue the reward transaction.  `nb` is the
`time()` read while building the block, `nr` the one read while building the
reward transaction.  `hH` is the termination condition of the
`proof_of_work` loop (a satisfying nonce exists for every target). -/
def minePendingTransactions (H : String → String)
    (hH : ∀ t, ∃ n, powOk H t n = true) (nb nr : Rat) (s : Blockchain)
    (minerAddress : String) : Except LedgerError (Block × Blockchain) :=
  let transactionsToMine := s.pending
  match lastBlock s with
  | Except.error e => Except.error e
  | Except.ok lastBlk =>
    let nonce := proof_of_work H lastBlk.hash (hH lastBlk.hash)
    let res := createNewBlock H nb s nonce lastBlk.hash transactionsToMine
    let s2 : Blockchain := { res.2 with pending := [] }
    let s3 := (addTransaction nr s2 rewardSender minerAddress 1).2
    Except.ok (res.1, s3)

/-- `Blockchain.is_chain_valid`, inner loop: given the previous block and
the remaining suffix of the chain, return `false` as soon as a block fails
the self-hash check or, failing that, the link check; `true` if the suffix
is exhausted. -/
def isChainValidAux (H : String → String) : Block → List Block → Bool
  | _, [] => true
  | prev, cur :: rest =>
    if cur.hash ≠ calculateHash H cur then false
    else if cur.previousHash ≠ prev.hash then false
    else isChainValidAux H cur rest

/-- `Blockchain.is_chain_valid`: scan the pairs `(chain[i-1], chain[i])` for
`i` from 1 upward; the genesis block is only ever used as a predecessor. -/
def isChainValid (H : String → String) (s : Blockchain) : Bool :=
  match s.chain with
  | [] => true
  | g :: rest => isChainValidAux H g rest

/-- Which of the two checks of the validation loop failed: these are the two
`return False` sites of `is_chain_valid` (each preceded by its own error
message). -/
inductive Fault where
  | badHash
  | badLink
deriving DecidableEq

/-- The validation loop instrumented with the information the code reports
on failure: the position `i` of the failing pair and which of the two checks
failed there (the self-hash check is performed first).  `none` iff the scan
reaches the end, i.e. iff `is_chain_valid` returns `True`. -/
def findFaultAux (H : String → String) :
    Block → List Block → Nat → Option (Nat × Fault)
  | _, [], _ => none
  | prev, cur :: rest, i =>
    if cur.hash ≠ calculateHash H cur then some (i, Fault.badHash)
    else if cur.previousHash ≠ prev.hash then some (i, Fault.badLink)
    else findFaultAux H cur rest (i + 1)

/-- Top-level instrumented validator: positions count from 1, the first
validated chain position. -/
def findFault (H : String → String) (s : Blockchain) : Option (Nat × Fault) :=
  match s.chain with
  | [] => none
  | g :: rest => findFaultAux H g rest 1

/-- The tampering performed by the demonstration section of the source
(lines 210–211): replace `chain[1].data`, then re-assign
`chain[1].hash = chain[1].calculate_hash()`.  States with fewer than two
blocks are returned unchanged (the demonstration never reaches that case). -/
def tamperBlock1 (H : String → String) (s : Blockchain) (d' : List Entry) :
    Blockchain :=
  match s.chain with
  | b0 :: b1 :: rest =>
    let bm := { b1 with data := d' }
    { s with chain := b0 :: { bm with hash := calculateHash H bm } :: rest }
  | l => { s with chain := l }

/-- Ledger states reachable through the public lifecycle: construction,
then any sequence of `add_transaction` and `mine_pending_transactions`
calls (`last_block` and `is_chain_valid` do not change the state). -/
inductive Reachable (H : String → String)
    (hH : ∀ t, ∃ n, powOk H t n = true) : Blockchain → Prop
  | init (now : Rat) : Reachable H hH (ledgerInit H now)
  | addTx (now : Rat) (sdr rcp : String) (amt : Rat) {s : Blockchain}
      (hs : Reachable H hH s) :
      Reachable H hH (addTransaction now s sdr rcp amt).2
  | mineOk (nb nr : Rat) (m : String) {s : Blockchain} {b : Block}
      {s' : Blockchain} (hs : Reachable H hH s)
      (hm : minePendingTransactions H hH nb nr s m = Except.ok (b, s')) :
      Reachable H hH s'

/-- The block appended by a successful `mine_pending_transactions` call on a
state whose tail block is `lb`. -/
def minedBlock (H : String → String) (hH : ∀ t, ∃ n, powOk H t n = true)
    (nb : Rat) (s : Blockchain) (lb : Block) : Block :=
  Block.init H s.chain.length nb s.pending lb.hash
    (proof_of_work H lb.hash (hH lb.hash))

/-- The self-hash condition of the validation loop at chain position `i`:
the stored hash of `chain[i]` equals its recomputed digest. -/
def chainSelfOk (H : String → String) (s : Blockchain) (i : Nat)
    (h : i < s.chain.length) : Prop :=
  (s.chain.get ⟨i, h⟩).hash = calculateHash H (s.chain.get ⟨i, h⟩)

/-- The link condition of the validation loop at chain position `i`:
`chain[i].previous_hash` equals `chain[i-1].hash`. -/
def chainLinkOk (s : Blockchain) (i : Nat) (h : i < s.chain.length) : Prop :=
  (s.chain.get ⟨i, h⟩).previousHash =
    (s.chain.get ⟨i - 1, Nat.lt_of_le_of_lt (Nat.pred_le i) h⟩).hash

/-- Both conditions the validation loop checks for the pair
`(chain[i-1], chain[i])`. -/
def chainPairOk (H : String → String) (s : Blockchain) (i : Nat)
    (h : i < s.chain.length) : Prop :=
  chainSelfOk H s i h ∧ chainLinkOk s i h

deriving instance DecidableEq for Except

/-! ## Concrete material for witnesses

A digest function only has to be *some* total function `String → String` to
instantiate the theorems; the constant function below makes every block pass
the difficulty target at nonce 0, and `H2` is a digest function that maps
the serialization of one designated (tampered) block to a different value
than everything else, which is what claim C2's hypotheses require. -/

/-- The all-zero digest value used by the concrete instantiations. -/
def zeroHash : String := "0000"

/-- A constant digest function: every string hashes to `"0000"`. -/
def H0 : String → String := fun _ => zeroHash

/-- A concrete proof-of-work target string. -/
def tgt0 : String := "t"

/-- A concrete miner identity. -/
def minerW : String := "m"

/-- Concrete sender and recipient identifiers. -/
def aW : String := "a"

/-- Concrete recipient identifier. -/
def bW : String := "b"

/-- The genesis block of `ledgerInit H0 0`: all `H0` digests are `"0000"`. -/
def gB : Block :=
  { index := 0, timestamp := 0, data := [genesisEntry], previousHash := genesisPrev,
    nonce := 1, hash := zeroHash }

/-- A concrete data entry used as tampered content. -/
def tamperEntryW : Entry :=
  { sender := "x", recipient := "y", amount := 0, timestamp := none }

/-- First block of the concrete three-block chain (valid under `H0` and
`H2`). -/
def c0W : Block :=
  { index := 0, timestamp := 0, data := [], previousHash := genesisPrev,
    nonce := 1, hash := zeroHash }

/-- Second block of the concrete three-block chain. -/
def c1W : Block :=
  { index := 1, timestamp := 0, data := [], previousHash := zeroHash,
    nonce := 7, hash := zeroHash }

/-- Third block of the concrete three-block chain. -/
def c2W : Block :=
  { index := 2, timestamp := 0, data := [], previousHash := zeroHash,
    nonce := 3, hash := zeroHash }

/-- A concrete three-block chain state. -/
def sC2W : Blockchain := { chain := [c0W, c1W, c2W], pending := [] }

/-- A digest function that distinguishes the serialization of `c1W` with its
data replaced by `[tamperEntryW]` from every other string. -/
def H2 : String → String := fun s =>
  if s = serializeFields 1 0 [tamperEntryW] zeroHash 7 then "1111" else zeroHash

/-- A block whose `previousHash` matches nothing, for a broken-link chain. -/
def xBadW : Block :=
  { index := 1, timestamp := 0, data := [], previousHash := "BAD",
    nonce := 2, hash := zeroHash }

/-- A concrete two-block chain whose second block has a valid self-hash but
a broken link. -/
def sBadW : Blockchain := { chain := [c0W, xBadW], pending := [] }

/-! ## Basic unfolding lemmas -/

/-- The serialization, and hence the digest, of a block reads only the five
content fields: overwriting the stored `hash` does not change the recomputed
digest. -/
theorem calculateHash_set_hash (H : String → String) (b : Block) (x : String) :
    calculateHash H { b with hash := x } = calculateHash H b := rfl

/-- The constructor already stores the digest of the five fields. -/
theorem Block.init_hash (H : String → String) (i : Nat) (t : Rat) (d : List Entry)
    (p : String) (n : Nat) :
    (Block.init H i t d p n).hash = calculateHash H (Block.init H i t d p n) := rfl

/-- `create_new_block` unfolded: the re-assignment
`block.hash = block.calculate_hash()` stores the value the constructor had
already computed, so the appended block is exactly `Block.init`. -/
theorem createNewBlock_eq (H : String → String) (now : Rat) (s : Blockchain)
    (nonce : Nat) (ph : String) (d : List Entry) :
    createNewBlock H now s nonce ph d =
      (Block.init H s.chain.length now d ph nonce,
       { s with chain := s.chain ++ [Block.init H s.chain.length now d ph nonce] }) := rfl

/-- The state after `add_transaction`: one entry appended to the pending
queue, the chain untouched (this holds in the error case too, since Python
appends before reading `last_block`). -/
theorem addTransaction_snd (now : Rat) (s : Blockchain) (a b : String) (c : Rat) :
    (addTransaction now s a b c).2 =
      { s with pending := s.pending ++
          [{ sender := a, recipient := b, amount := c, timestamp := some now }] } := rfl

/-- `mine_pending_transactions` unfolded on a state with a tail block:
it returns the mined block, appends it to the chain, and leaves exactly the
reward transaction pending. -/
theorem mine_eq (H : String → String) (hH : ∀ t, ∃ n, powOk H t n = true)
    (nb nr : Rat) (s : Blockchain) (m : String) (lb : Block)
    (hlast : lastBlock s = Except.ok lb) :
    minePendingTransactions H hH nb nr s m =
      Except.ok (minedBlock H hH nb s lb,
        { chain := s.chain ++ [minedBlock H hH nb s lb],
          pending := [rewardEntry nr m] }) := by
  simp only [minePendingTransactions, hlast]
  rfl

/-- The `proof_of_work` loop terminates for `H0` at nonce 0, for every
target. -/
theorem hH0 : ∀ t, ∃ n, powOk H0 t n = true :=
  fun _ => ⟨0, by simp only [powOk, H0]; rfl⟩

/-- On a non-empty chain, `last_block` returns the final element. -/
theorem lastBlock_of_ne (s : Blockchain) (h : s.chain ≠ []) :
    lastBlock s = Except.ok (s.chain.getLast h) := by
  simp [lastBlock, List.getLast?_eq_getLast_of_ne_nil h]

/-- A successful mine call presupposes a tail block: on an empty chain the
`last_block` read raises before anything else happens. -/
theorem mine_ok_last (H : String → String) (hH : ∀ t, ∃ n, powOk H t n = true)
    (nb nr : Rat) (s : Blockchain) (m : String) (b : Block) (s' : Blockchain)
    (hm : minePendingTransactions H hH nb nr s m = Except.ok (b, s')) :
    ∃ lb, lastBlock s = Except.ok lb := by
  cases hlb : lastBlock s with
  | ok lb => exact ⟨lb, rfl⟩
  | error e =>
    rw [minePendingTransactions, hlb] at hm
    exact absurd hm (by simp)

/-- Inversion of a successful mine call: the produced block and state have
the shapes given by `mine_eq`. -/
theorem mine_ok_shape (H : String → String) (hH : ∀ t, ∃ n, powOk H t n = true)
    (nb nr : Rat) (s : Blockchain) (m : String) (b : Block) (s' : Blockchain)
    (hm : minePendingTransactions H hH nb nr s m = Except.ok (b, s')) :
    ∃ lb, lastBlock s = Except.ok lb ∧ b = minedBlock H hH nb s lb ∧
      s' = { chain := s.chain ++ [minedBlock H hH nb s lb],
             pending := [rewardEntry nr m] } := by
  obtain ⟨lb, hlb⟩ := mine_ok_last H hH nb nr s m b s' hm
  refine ⟨lb, hlb, ?_⟩
  rw [mine_eq H hH nb nr s m lb hlb] at hm
  injection hm with h
  injection h with h1 h2
  exact ⟨h1.symm, h2.symm⟩

/-- Every reachable ledger state has a non-empty chain (construction seeds
the genesis block and blocks are never removed). -/
theorem Reachable.chain_ne {H : String → String}
    {hH : ∀ t, ∃ n, powOk H t n = true} {s : Blockchain}
    (hr : Reachable H hH s) : s.chain ≠ [] := by
  induction hr with
  | init now => simp [ledgerInit, createGenesisBlock, createNewBlock_eq]
  | addTx now sdr rcp amt hs ih => simpa [addTransaction_snd] using ih
  | @mineOk nb nr m s1 b1 s1' hs hm ih =>
    obtain ⟨lb, hlb, hb, hs'⟩ := mine_ok_shape H hH nb nr s1 m b1 s1' hm
    subst hs'
    simp

/-- In every reachable ledger state the block indices are `0, 1, 2, …` in
chain order: `create_new_block` stamps each block with `len(chain)`. -/
theorem Reachable.seqIdx {H : String → String}
    {hH : ∀ t, ∃ n, powOk H t n = true} {s : Blockchain}
    (hr : Reachable H hH s) :
    s.chain.map Block.index = List.range s.chain.length := by
  induction hr with
  | init now => rfl
  | addTx now sdr rcp amt hs ih => simpa [addTransaction_snd] using ih
  | @mineOk nb nr m s1 b1 s1' hs hm ih =>
    obtain ⟨lb, hlb, hb, hs'⟩ := mine_ok_shape H hH nb nr s1 m b1 s1' hm
    subst hs'
    simp only [List.map_append, List.length_append, ih]
    simp [minedBlock, Block.init, List.range_succ]

/-- In a state with sequential indices, the tail block's index is
`len(chain) - 1`. -/
theorem getLast_index_of_seqIdx (s : Blockchain)
    (hseq : s.chain.map Block.index = List.range s.chain.length)
    (h : s.chain ≠ []) : (s.chain.getLast h).index = s.chain.length - 1 := by
  obtain ⟨n, hn⟩ : ∃ n, s.chain.length = n + 1 :=
    ⟨s.chain.length - 1, by have := List.length_pos.mpr h; omega⟩
  have h1 : (s.chain.map Block.index).getLast? = some n := by
    rw [hseq, hn, List.range_succ]
    simp
  rw [List.getLast?_map, List.getLast?_eq_getLast_of_ne_nil h] at h1
  simp only [Option.map_some'] at h1
  have h2 := Option.some.inj h1
  omega

/-- The value returned by `add_transaction` on a non-empty chain:
`last_block.index + 1`. -/
theorem addTransaction_fst (now : Rat) (s : Blockchain) (a b : String) (c : Rat)
    (h : s.chain ≠ []) :
    (addTransaction now s a b c).1 =
      Except.ok ((s.chain.getLast h).index + 1) := by
  have h2 : ({ s with pending := s.pending ++
      [{ sender := a, recipient := b, amount := c, timestamp := some now }] } :
      Blockchain).chain ≠ [] := h
  simp only [addTransaction, lastBlock_of_ne _ h2]

/-! ## Claim theorems -/

/-- Claim C3: for every target string such that some nonce makes the digest
of `target ++ toString nonce` start with the difficulty prefix (`k = 4`
zeros, `DIFFICULTY_TARGET = "0000"`), `proof_of_work` terminates (it is a
total function under that hypothesis) and returns the least such nonce: the
returned nonce passes the prefix test and every smaller one fails it. -/
theorem claimC3 (H : String → String) (target : String)
    (h : ∃ n, powOk H target n = true) :
    DIFFICULTY_TARGET = "0000" ∧
    powOk H target (proof_of_work H target h) = true ∧
    ∀ m, m < proof_of_work H target h → powOk H target m = false := by
  refine ⟨rfl, Nat.find_spec h, fun m hm => ?_⟩
  have := Nat.find_min h hm
  simpa using this

/-- Witness for C3 at the concrete digest function `H0` and target `tgt0`. -/
theorem claimC3_witness :
    DIFFICULTY_TARGET = "0000" ∧
    powOk H0 tgt0 (proof_of_work H0 tgt0 (hH0 tgt0)) = true ∧
    ∀ m, m < proof_of_work H0 tgt0 (hH0 tgt0) → powOk H0 tgt0 m = false :=
  claimC3 H0 tgt0 (hH0 tgt0)

/-- Claim C4: on every ledger state with a non-empty chain (equivalently,
with a tail block `lb`), one `mine_pending_transactions` call succeeds and
afterwards the chain is exactly one block longer (the new block appended at
the end), the new block's `previous_hash` is the old tail's `hash`, and the
pending queue holds exactly the reward entry (sentinel system sender, the
given miner identity, amount `1.0`). -/
theorem claimC4 (H : String → String) (hH : ∀ t, ∃ n, powOk H t n = true)
    (nb nr : Rat) (s : Blockchain) (m : String) (lb : Block)
    (hlast : lastBlock s = Except.ok lb) :
    ∃ b s', minePendingTransactions H hH nb nr s m = Except.ok (b, s') ∧
      s'.chain = s.chain ++ [b] ∧ s'.chain.length = s.chain.length + 1 ∧
      b.previousHash = lb.hash ∧ s'.pending = [rewardEntry nr m] :=
  ⟨minedBlock H hH nb s lb, _, mine_eq H hH nb nr s m lb hlast, rfl, by simp, rfl, rfl⟩

/-- Witness for C4 on a freshly constructed ledger under `H0`. -/
theorem claimC4_witness :
    lastBlock (ledgerInit H0 0) = Except.ok gB ∧
    (∃ b s', minePendingTransactions H0 hH0 0 0 (ledgerInit H0 0) minerW =
        Except.ok (b, s') ∧
      s'.chain = (ledgerInit H0 0).chain ++ [b] ∧
      s'.chain.length = (ledgerInit H0 0).chain.length + 1 ∧
      b.previousHash = gB.hash ∧ s'.pending = [rewardEntry 0 minerW]) :=
  ⟨by decide, claimC4 H0 hH0 0 0 (ledgerInit H0 0) minerW gB (by decide)⟩

/-- Claim C5: the entries pending when `mine_pending_transactions` is called
are exactly (hence in insertion order) the data of the block that call
appends; the reward entry created by that call is not among that block's
data (it did not exist when the snapshot was taken — expressed by the value
freshness hypothesis `hrw`), and it is the data of the block appended by the
immediately following `mine_pending_transactions` call. -/
theorem claimC5 (H : String → String) (hH : ∀ t, ∃ n, powOk H t n = true)
    (nb1 nr1 nb2 nr2 : Rat) (m1 m2 : String) (s : Blockchain)
    (b1 : Block) (s1 : Blockchain) (b2 : Block) (s2 : Blockchain)
    (h1 : minePendingTransactions H hH nb1 nr1 s m1 = Except.ok (b1, s1))
    (h2 : minePendingTransactions H hH nb2 nr2 s1 m2 = Except.ok (b2, s2))
    (hrw : rewardEntry nr1 m1 ∉ s.pending) :
    b1.data = s.pending ∧ rewardEntry nr1 m1 ∉ b1.data ∧
      b2.data = [rewardEntry nr1 m1] := by
  obtain ⟨lb, hlb, hb1, hs1⟩ := mine_ok_shape H hH nb1 nr1 s m1 b1 s1 h1
  subst hb1 hs1
  obtain ⟨lb2, hlb2, hb2, hs2⟩ := mine_ok_shape H hH nb2 nr2 _ m2 b2 s2 h2
  subst hb2
  exact ⟨rfl, hrw, rfl⟩

/-- Witness for C5: two consecutive mine calls on a fresh ledger under
`H0`. -/
theorem claimC5_witness :
    (minedBlock H0 hH0 0 (ledgerInit H0 0) gB).data = (ledgerInit H0 0).pending ∧
    rewardEntry 0 minerW ∉ (minedBlock H0 hH0 0 (ledgerInit H0 0) gB).data ∧
    (minedBlock H0 hH0 0
        { chain := (ledgerInit H0 0).chain ++ [minedBlock H0 hH0 0 (ledgerInit H0 0) gB],
          pending := [rewardEntry 0 minerW] }
        (minedBlock H0 hH0 0 (ledgerInit H0 0) gB)).data = [rewardEntry 0 minerW] :=
  claimC5 H0 hH0 0 0 0 0 minerW minerW (ledgerInit H0 0)
    (minedBlock H0 hH0 0 (ledgerInit H0 0) gB)
    { chain := (ledgerInit H0 0).chain ++ [minedBlock H0 hH0 0 (ledgerInit H0 0) gB],
      pending := [rewardEntry 0 minerW] }
    (minedBlock H0 hH0 0
      { chain := (ledgerInit H0 0).chain ++ [minedBlock H0 hH0 0 (ledgerInit H0 0) gB],
        pending := [rewardEntry 0 minerW] }
      (minedBlock H0 hH0 0 (ledgerInit H0 0) gB))
    { chain := ((ledgerInit H0 0).chain ++ [minedBlock H0 hH0 0 (ledgerInit H0 0) gB]) ++
        [minedBlock H0 hH0 0
          { chain := (ledgerInit H0 0).chain ++ [minedBlock H0 hH0 0 (ledgerInit H0 0) gB],
            pending := [rewardEntry 0 minerW] }
          (minedBlock H0 hH0 0 (ledgerInit H0 0) gB)],
      pending := [rewardEntry 0 minerW] }
    (mine_eq H0 hH0 0 0 (ledgerInit H0 0) minerW gB (by decide))
    (mine_eq H0 hH0 0 0 _ minerW (minedBlock H0 hH0 0 (ledgerInit H0 0) gB)
      (by simp [lastBlock, List.getLast?_concat]))
    (by decide)

/-- Claim C6, counterexample: on an empty chain, `last_block` fails with the
out-of-bounds `IndexError` of `self.chain[-1]`, not with the dedicated
`EmptyChainError` the claim asserts. -/
theorem claimC6_counterexample :
    lastBlock { chain := [], pending := [] } = Except.error LedgerError.indexError ∧
    lastBlock { chain := [], pending := [] } ≠ Except.error LedgerError.emptyChainError := by
  exact ⟨rfl, by decide⟩

/-- Claim C6, amended: on an empty chain, `last_block` fails with the
(defined, non-silent) out-of-bounds `IndexError` — no dedicated
`EmptyChainError` exists in the code — and on a non-empty chain it returns
the chain's final element. -/
theorem claimC6_amended (s : Blockchain) :
    (s.chain = [] → lastBlock s = Except.error LedgerError.indexError) ∧
    (∀ lb, s.chain.getLast? = some lb → lastBlock s = Except.ok lb) := by
  constructor
  · intro h
    simp [lastBlock, h]
  · intro lb h
    simp [lastBlock, h]

/-- Witness for the amended C6, at an empty and a singleton chain. -/
theorem claimC6_witness :
    lastBlock { chain := [], pending := [] } = Except.error LedgerError.indexError ∧
    lastBlock { chain := [gB], pending := [] } = Except.ok gB :=
  ⟨(claimC6_amended { chain := [], pending := [] }).1 rfl,
   (claimC6_amended { chain := [gB], pending := [] }).2 gB (by decide)⟩

/-- Claim C7: in every reachable ledger state, `add_transaction` appends
exactly one entry with the given fields and the current timestamp to the
pending queue, leaves the chain unchanged (the returned state differs only
in `pending`), and returns `len(chain)` — the code computes it as
`last_block.index + 1`, which equals the chain length because reachable
states have sequential indices. -/
theorem claimC7 (H : String → String) (hH : ∀ t, ∃ n, powOk H t n = true)
    (now : Rat) (s : Blockchain) (sdr rcp : String) (amt : Rat)
    (hr : Reachable H hH s) :
    addTransaction now s sdr rcp amt =
      (Except.ok s.chain.length,
       { s with pending := s.pending ++
          [{ sender := sdr, recipient := rcp, amount := amt,
             timestamp := some now }] }) := by
  have hne := hr.chain_ne
  have hidx := getLast_index_of_seqIdx s hr.seqIdx hne
  have hlen := List.length_pos.mpr hne
  have h1 := addTransaction_fst now s sdr rcp amt hne
  have h2 := addTransaction_snd now s sdr rcp amt
  have h3 : (s.chain.getLast hne).index + 1 = s.chain.length := by omega
  calc addTransaction now s sdr rcp amt
      = ((addTransaction now s sdr rcp amt).1,
         (addTransaction now s sdr rcp amt).2) := rfl
    _ = _ := by rw [h1, h2, h3]

/-- Witness for C7 on a freshly constructed ledger. -/
theorem claimC7_witness :
    addTransaction 5 (ledgerInit H0 0) aW bW 2 =
      (Except.ok (ledgerInit H0 0).chain.length,
       { ledgerInit H0 0 with pending := (ledgerInit H0 0).pending ++
          [{ sender := aW, recipient := bW, amount := 2, timestamp := some 5 }] }) :=
  claimC7 H0 hH0 5 (ledgerInit H0 0) aW bW 2 (Reachable.init 0)

/-- Claim C8: in every reachable ledger state the block indices are
sequential from zero — `chain[i].index = i` for every position `i` — stated
both as a whole-list equation and pointwise; the invariant is preserved by
every public operation since `Reachable` closes over all of them. -/
theorem claimC8 (H : String → String) (hH : ∀ t, ∃ n, powOk H t n = true)
    (s : Blockchain) (hr : Reachable H hH s) :
    s.chain.map Block.index = List.range s.chain.length ∧
    ∀ i (hi : i < s.chain.length), (s.chain.get ⟨i, hi⟩).index = i := by
  refine ⟨hr.seqIdx, fun i hi => ?_⟩
  have h1 := List.get_of_eq hr.seqIdx ⟨i, by simpa using hi⟩
  simp only [List.get_eq_getElem, List.getElem_map, List.getElem_range] at h1
  simpa using h1

/-- Witness for C8 at the initial state. -/
theorem claimC8_witness :
    (ledgerInit H0 0).chain.map Block.index =
      List.range (ledgerInit H0 0).chain.length :=
  (claimC8 H0 hH0 (ledgerInit H0 0) (Reachable.init 0)).1

/-- Claim C9: a freshly constructed ledger has exactly one block — index 0,
previous hash `"0"`, nonce 1, data the single synthetic `System → Genesis`
entry of amount 0 — and an empty pending queue. -/
theorem claimC9 (H : String → String) (now : Rat) :
    ∃ g : Block, (ledgerInit H now).chain = [g] ∧ g.index = 0 ∧
      g.previousHash = "0" ∧ g.nonce = 1 ∧
      g.data = [{ sender := "System", recipient := "Genesis", amount := 0,
                  timestamp := none }] ∧
      (ledgerInit H now).pending = [] :=
  ⟨Block.init H 0 now [genesisEntry] genesisPrev 1, rfl, rfl, rfl, rfl, rfl, rfl⟩

/-- Claim C10: the digest computed by `calculate_hash` depends only on the
five content fields and not on the stored `hash` (first conjunct), so the
re-assignment `block.hash = block.calculate_hash()` in `create_new_block`
is a no-op: the block it appends is exactly the one the constructor built
(second conjunct). -/
theorem claimC10 (H : String → String) :
    (∀ (b : Block) (x : String),
      calculateHash H { b with hash := x } = calculateHash H b) ∧
    (∀ (now : Rat) (s : Blockchain) (nonce : Nat) (ph : String) (d : List Entry),
      (createNewBlock H now s nonce ph d).1 =
        Block.init H s.chain.length now d ph nonce) :=
  ⟨fun _ _ => rfl, fun _ _ _ _ _ => rfl⟩

/-! ## Validation: characterization of `is_chain_valid` and its failure
reporting -/

/-- One step of the validation loop, as a conjunction. -/
theorem isChainValidAux_cons (H : String → String) (p c : Block) (rest : List Block) :
    isChainValidAux H p (c :: rest) = true ↔
      (c.hash = calculateHash H c ∧ c.previousHash = p.hash ∧
       isChainValidAux H c rest = true) := by
  rw [isChainValidAux]
  by_cases h1 : c.hash = calculateHash H c <;>
    by_cases h2 : c.previousHash = p.hash <;> simp [h1, h2]

/-- The validation loop succeeds iff every block of the scanned suffix
passes both checks against its predecessor. -/
theorem isChainValidAux_iff (H : String → String) :
    ∀ (l : List Block) (p : Block),
      isChainValidAux H p l = true ↔
        ∀ i (h : i < l.length),
          (l.get ⟨i, h⟩).hash = calculateHash H (l.get ⟨i, h⟩) ∧
          (l.get ⟨i, h⟩).previousHash =
            ((p :: l).get ⟨i, Nat.lt_succ_of_lt h⟩).hash := by
  intro l
  induction l with
  | nil => intro p; simp [isChainValidAux]
  | cons c rest ih =>
    intro p
    rw [isChainValidAux_cons]
    constructor
    · rintro ⟨h1, h2, h3⟩ i hi
      match i with
      | 0 => exact ⟨h1, h2⟩
      | j + 1 =>
        have := (ih c).mp h3 j (by simpa using hi)
        exact this
    · intro hall
      refine ⟨(hall 0 (by simp)).1, (hall 0 (by simp)).2, (ih c).mpr ?_⟩
      intro j hj
      exact hall (j + 1) (by simpa using hj)

/-- `is_chain_valid` returns `True` iff every chain position from 1 on
passes the self-hash and link checks. -/
theorem isChainValid_iff (H : String → String) (s : Blockchain) :
    isChainValid H s = true ↔
      ∀ i, 1 ≤ i → ∀ h : i < s.chain.length, chainPairOk H s i h := by
  obtain ⟨ch, pd⟩ := s
  cases ch with
  | nil =>
    simp only [isChainValid]
    constructor
    · intro _ i h1 h
      simp at h
    · intro _
      trivial
  | cons g rest =>
    show isChainValidAux H g rest = true ↔ _
    rw [isChainValidAux_iff]
    constructor
    · intro hall i h1 h
      match i, h1 with
      | j + 1, _ =>
        have hj : j < rest.length := by simpa using h
        exact ⟨(hall j hj).1, (hall j hj).2⟩
    · intro hall j hj
      have h2 : j + 1 < (Blockchain.mk (g :: rest) pd).chain.length := by simpa using hj
      exact ⟨(hall (j + 1) (by omega) h2).1, (hall (j + 1) (by omega) h2).2⟩

/-- The instrumented loop reports no fault iff the plain loop returns
`True`. -/
theorem findFaultAux_none (H : String → String) :
    ∀ (l : List Block) (p : Block) (i0 : Nat),
      findFaultAux H p l i0 = none ↔ isChainValidAux H p l = true := by
  intro l
  induction l with
  | nil =>
    intro p i0
    simp [findFaultAux, isChainValidAux]
  | cons c rest ih =>
    intro p i0
    rw [findFaultAux, isChainValidAux]
    by_cases h1 : c.hash = calculateHash H c <;>
      by_cases h2 : c.previousHash = p.hash <;> simp [h1, h2, ih]

/-- When the instrumented loop reports a fault it is at the first failing
position of the scanned suffix (all earlier positions pass both checks),
and the reported kind records which of the two checks failed there, the
self-hash check having been tried first. -/
theorem findFaultAux_some (H : String → String) :
    ∀ (l : List Block) (p : Block) (i0 i : Nat) (k : Fault),
      findFaultAux H p l i0 = some (i, k) →
      ∃ j, i = i0 + j ∧ ∃ hj : j < l.length,
        (∀ m (hm : m < l.length), m < j →
          (l.get ⟨m, hm⟩).hash = calculateHash H (l.get ⟨m, hm⟩) ∧
          (l.get ⟨m, hm⟩).previousHash =
            ((p :: l).get ⟨m, Nat.lt_succ_of_lt hm⟩).hash) ∧
        ((k = Fault.badHash ∧
            ¬ (l.get ⟨j, hj⟩).hash = calculateHash H (l.get ⟨j, hj⟩)) ∨
         (k = Fault.badLink ∧
            (l.get ⟨j, hj⟩).hash = calculateHash H (l.get ⟨j, hj⟩) ∧
            ¬ (l.get ⟨j, hj⟩).previousHash =
              ((p :: l).get ⟨j, Nat.lt_succ_of_lt hj⟩).hash)) := by
  intro l
  induction l with
  | nil =>
    intro p i0 i k h
    simp [findFaultAux] at h
  | cons c rest ih =>
    intro p i0 i k h
    rw [findFaultAux] at h
    by_cases h1 : c.hash = calculateHash H c
    · rw [if_neg (by simpa using h1)] at h
      by_cases h2 : c.previousHash = p.hash
      · rw [if_neg (by simpa using h2)] at h
        obtain ⟨j, hij, hj, hpre, hf⟩ := ih c (i0 + 1) i k h
        refine ⟨j + 1, by omega, by simpa using hj, ?_, ?_⟩
        · intro m hm hmj
          match m with
          | 0 => exact ⟨h1, h2⟩
          | m' + 1 => exact hpre m' (by simpa using hm) (by omega)
        · exact hf
      · rw [if_pos (by simpa using h2)] at h
        injection h with h'
        injection h' with ha hb
        subst ha
        subst hb
        refine ⟨0, by omega, by simp, fun m hm hmj => absurd hmj (by omega), ?_⟩
        right
        exact ⟨rfl, h1, h2⟩
    · rw [if_pos (by simpa using h1)] at h
      injection h with h'
      injection h' with ha hb
      subst ha
      subst hb
      refine ⟨0, by omega, by simp, fun m hm hmj => absurd hmj (by omega), ?_⟩
      left
      exact ⟨rfl, h1⟩

/-- Lifted no-fault characterization. -/
theorem findFault_none (H : String → String) (s : Blockchain) :
    findFault H s = none ↔ isChainValid H s = true := by
  obtain ⟨ch, pd⟩ := s
  cases ch with
  | nil => simp [findFault, isChainValid]
  | cons g rest => exact findFaultAux_none H rest g 1

/-- Lifted fault characterization: a reported fault pinpoints the least
failing chain position and which check failed there. -/
theorem findFault_some (H : String → String) (s : Blockchain) (i : Nat)
    (k : Fault) (h : findFault H s = some (i, k)) :
    isChainValid H s = false ∧ 1 ≤ i ∧ ∃ hi : i < s.chain.length,
      (∀ j, 1 ≤ j → ∀ hj : j < s.chain.length, j < i → chainPairOk H s j hj) ∧
      ¬ chainPairOk H s i hi ∧
      (k = Fault.badHash ↔ ¬ chainSelfOk H s i hi) ∧
      (k = Fault.badLink ↔ chainSelfOk H s i hi ∧ ¬ chainLinkOk s i hi) := by
  have hfalse : isChainValid H s = false := by
    have h1 : isChainValid H s ≠ true := by
      intro hv
      have := (findFault_none H s).mpr hv
      rw [h] at this
      exact absurd this (by simp)
    simpa using h1
  refine ⟨hfalse, ?_⟩
  obtain ⟨ch, pd⟩ := s
  cases ch with
  | nil => simp [findFault] at h
  | cons g rest =>
    obtain ⟨j, hij, hj, hpre, hf⟩ := findFaultAux_some H rest g 1 i k h
    have hij' : i = j + 1 := by omega
    subst hij'
    refine ⟨by omega, by simpa using Nat.succ_lt_succ hj, ?_, ?_, ?_, ?_⟩
    · intro m hm1 hm hmi
      match m, hm1 with
      | m' + 1, _ =>
        have := hpre m' (by simpa using hm) (by omega)
        exact ⟨this.1, this.2⟩
    · intro hpair
      rcases hf with ⟨hk, hself⟩ | ⟨hk, hself, hlink⟩
      · exact hself hpair.1
      · exact hlink hpair.2
    · rcases hf with ⟨hk, hself⟩ | ⟨hk, hself, hlink⟩
      · subst hk
        exact ⟨fun _ => hself, fun _ => rfl⟩
      · subst hk
        exact ⟨fun hkk => absurd hkk (by simp), fun hns => absurd hself hns⟩
    · rcases hf with ⟨hk, hself⟩ | ⟨hk, hself, hlink⟩
      · subst hk
        refine ⟨fun hkk => absurd hkk (by simp), fun hsl => absurd hsl.1 hself⟩
      · subst hk
        exact ⟨fun _ => ⟨hself, hlink⟩, fun _ => rfl⟩

/-- Claim C1: `is_chain_valid` returns `True` iff for every chain position
`i` from 1 to `len(chain) - 1` the stored hash of `chain[i]` equals its
recomputed digest and `chain[i].previous_hash` equals `chain[i-1].hash`
(first conjunct; the genesis block at position 0 is never itself validated —
only positions `i ≥ 1` are constrained); any chain of length 0 or 1
validates (second conjunct); the scan proceeds in ascending order, stopping
at the first failing pair with the self-hash check tried before the link
check: the fault the loop reports is at the least failing position, all
earlier pairs pass, and the reported kind is `badHash` exactly when the
self-hash check fails there (third conjunct); a `False` verdict always comes
with such a reported fault (fourth conjunct). -/
theorem claimC1 (H : String → String) (s : Blockchain) :
    (isChainValid H s = true ↔
      ∀ i, 1 ≤ i → ∀ h : i < s.chain.length, chainPairOk H s i h) ∧
    (s.chain.length ≤ 1 → isChainValid H s = true) ∧
    (∀ i k, findFault H s = some (i, k) →
      isChainValid H s = false ∧ 1 ≤ i ∧ ∃ hi : i < s.chain.length,
        (∀ j, 1 ≤ j → ∀ hj : j < s.chain.length, j < i → chainPairOk H s j hj) ∧
        ¬ chainPairOk H s i hi ∧
        (k = Fault.badHash ↔ ¬ chainSelfOk H s i hi) ∧
        (k = Fault.badLink ↔ chainSelfOk H s i hi ∧ ¬ chainLinkOk s i hi)) ∧
    (isChainValid H s = false → ∃ i k, findFault H s = some (i, k)) := by
  refine ⟨isChainValid_iff H s, ?_, fun i k h => findFault_some H s i k h, ?_⟩
  · intro hlen
    rw [isChainValid_iff]
    intro i h1 h
    omega
  · intro hv
    cases hff : findFault H s with
    | none => exact absurd ((findFault_none H s).mp hff) (by simp [hv])
    | some ik =>
      obtain ⟨i, k⟩ := ik
      exact ⟨i, k, rfl⟩

/-- Witness for C1: a singleton chain validates by the length-1 conjunct,
and a concrete two-block chain with a broken link is rejected via the
fault-report conjunct. -/
theorem claimC1_witness :
    isChainValid H0 { chain := [c0W], pending := [] } = true ∧
    isChainValid H0 sBadW = false :=
  ⟨(claimC1 H0 { chain := [c0W], pending := [] }).2.1 (by decide),
   ((claimC1 H0 sBadW).2.2.1 1 Fault.badLink (by decide)).1⟩

/-- Claim C2: take any ledger with at least three blocks that currently
validates; mutate `chain[1].data` to any value whose recomputed digest
differs from the originally stored `chain[1].hash`, then set `chain[1].hash`
to that recomputed digest (`tamperBlock1`, exactly the manipulation of the
source's demonstration).  Then `is_chain_valid` returns `False`, and the
failure is the link check at position 2 — not any self-hash check: the
reported fault is `(2, badLink)`, which by `findFault_some` means every
check before it (including the tampered block's own self-hash check)
passed. -/
theorem claimC2 (H : String → String) (b0 b1 b2 : Block) (rest : List Block)
    (pd : List Entry) (d' : List Entry)
    (hvalid : isChainValid H { chain := b0 :: b1 :: b2 :: rest, pending := pd } = true)
    (hdiff : calculateHash H { b1 with data := d' } ≠ b1.hash) :
    isChainValid H
      (tamperBlock1 H { chain := b0 :: b1 :: b2 :: rest, pending := pd } d') = false ∧
    findFault H
      (tamperBlock1 H { chain := b0 :: b1 :: b2 :: rest, pending := pd } d') =
      some (2, Fault.badLink) := by
  have hv1 : isChainValidAux H b0 (b1 :: b2 :: rest) = true := hvalid
  rw [isChainValidAux_cons] at hv1
  obtain ⟨h1self, h1link, hv2⟩ := hv1
  rw [isChainValidAux_cons] at hv2
  obtain ⟨h2self, h2link, hv3⟩ := hv2
  have hff0 : findFaultAux H b0
      ({ b1 with
          data := d'
          hash := calculateHash H { b1 with data := d' } } :: b2 :: rest) 1 =
      some (2, Fault.badLink) := by
    rw [findFaultAux, if_neg (fun hne => hne rfl), if_neg (fun hne => hne h1link),
      findFaultAux, if_neg (fun hne => hne h2self),
      if_pos (fun heq => hdiff (heq.symm.trans h2link))]
  have hff : findFault H
      (tamperBlock1 H { chain := b0 :: b1 :: b2 :: rest, pending := pd } d') =
      some (2, Fault.badLink) := hff0
  refine ⟨?_, hff⟩
  have h1 : isChainValid H
      (tamperBlock1 H { chain := b0 :: b1 :: b2 :: rest, pending := pd } d') ≠ true := by
    intro hv
    have h2 := (findFault_none H _).mpr hv
    rw [hff] at h2
    exact absurd h2 (by simp)
  simpa using h1

/-- Witness for C2: the concrete three-block chain `sC2W` validates under
`H2`, and tampering block 1 with `tamperEntryW` (whose digest under `H2`
differs from the stored hash) is caught at the link check of position 2. -/
theorem claimC2_witness :
    isChainValid H2 (tamperBlock1 H2 sC2W [tamperEntryW]) = false ∧
    findFault H2 (tamperBlock1 H2 sC2W [tamperEntryW]) = some (2, Fault.badLink) :=
  claimC2 H2 c0W c1W c2W [] [] [tamperEntryW] (by decide) (by decide)
